import Mathlib

/-!
Verification of the LOCC-impossibility experiment scripts.

The development shallowly embeds the two Python modules of the repository:

* experiment module: experimental constants, circuit construction
  (create_bell_state, controlled_rotation_cnot, the three condition circuits,
  add_measurements), the counts-based estimators compute_correlation and
  verify_marker_erasure, and the per-angle driver run_experiment (modelled as a
  fold of a per-angle step over the fixed angle list, parametrised by the
  external device, which is an arbitrary function from circuits and shot
  counts to measurement counts).

* analysis module: locating the 90-degree angle by exact equality
  (numpy.where on an equality mask), the gap/significance computation of
  analyze_restoration_failure and test_erasure_vs_no_erasure.

Modelling conventions:
* A measurement-counts mapping is a finite association list from bitstrings
  (lists of booleans) to natural-number counts.
* Python indexing that can raise IndexError is modelled with List.get?; a
  function that can raise returns an Option, and the value none stands for an
  uncaught exception.
* Exact values are carried in ℚ (integer/ratio arithmetic) and ℝ (square
  roots, angles in radians); the numpy floating-point behaviour of dividing a
  nonnegative number by zero (yielding positive infinity, or nan for zero
  over zero) is captured by the small inductive type NpF below, with exact
  real arithmetic in the finite case.
-/

namespace LoccExp

/-- A measured outcome: the bitstring characters of one result key. -/
abbrev Bitstring := List Bool

/-- Measurement results as an association list from bitstring to count
(the dict passed around as counts in the Python code). -/
abbrev Counts := List (Bitstring × ℕ)

/-- Qubit assignment for Alice (module constant ALICE_QUBIT = 0). -/
def ALICE_QUBIT : ℕ := 0

/-- Qubit assignment for Bob (module constant BOB_QUBIT = 1). -/
def BOB_QUBIT : ℕ := 1

/-- Qubit assignment for the marker (module constant MARKER_QUBIT = 2). -/
def MARKER_QUBIT : ℕ := 2

/-- The fixed coupling-angle list in degrees (module constant THETA_VALUES). -/
def THETA_VALUES : List ℚ := [0, 30, 60, 90, 120, 150, 180]

/-- Measurement shots per circuit (module constant N_SHOTS). -/
def N_SHOTS : ℕ := 2000

/-- Device ARN string (module constant DEVICE_ARN). -/
def DEVICE_ARN : String := "arn:aws:braket:us-west-1::device/qpu/rigetti/Ankaa-3"

/-- Sum of all occurrence counts of a counts mapping. -/
def totalCount (counts : Counts) : ℕ := (counts.map Prod.snd).sum

/-- The accumulation loop of compute_correlation: walks the counts items,
reads the bit at alice_idx and at bob_idx of each bitstring (none models the
IndexError raised when a key is too short), and accumulates the same /
different counters. -/
def classifyLoop : Counts → ℕ → ℕ → ℕ → ℕ → Option (ℕ × ℕ)
  | [], _, _, same, different => some (same, different)
  | (bs, c) :: rest, i, j, same, different =>
    match bs[i]?, bs[j]? with
    | some alice_bit, some bob_bit =>
      if alice_bit = bob_bit then classifyLoop rest i j (same + c) different
      else classifyLoop rest i j same (different + c)
    | _, _ => none

/-- compute_correlation from the experiment module: runs the classification
loop, then returns C = (same - different) / n_shots together with the
binomial-style error 1 / sqrt(n_shots).  A too-short bitstring key raises
(none), and n_shots = 0 raises ZeroDivisionError at the division (none). -/
noncomputable def compute_correlation (counts : Counts) (alice_idx bob_idx n_shots : ℕ) :
    Option (ℚ × ℝ) :=
  match classifyLoop counts alice_idx bob_idx 0 0 with
  | none => none
  | some (same, different) =>
    if n_shots = 0 then none
    else some (((same : ℚ) - (different : ℚ)) / (n_shots : ℚ), 1 / Real.sqrt (n_shots : ℝ))

/-- The accumulation loop of verify_marker_erasure: walks the counts items,
reads the bit at marker_idx (none models IndexError for a too-short key),
adds every count to the running total and the zero-bit counts to the
marker-zero counter. -/
def markerLoop : Counts → ℕ → ℕ → ℕ → Option (ℕ × ℕ)
  | [], _, marker_zero, total => some (marker_zero, total)
  | (bs, c) :: rest, m, marker_zero, total =>
    match bs[m]? with
    | some marker_bit =>
      markerLoop rest m (if marker_bit = false then marker_zero + c else marker_zero) (total + c)
    | none => none

/-- verify_marker_erasure from the experiment module: the fraction of the
total count whose marker bit reads zero, with the guarded division
(marker_zero / total if total > 0 else 0). -/
def verify_marker_erasure (counts : Counts) (marker_idx : ℕ) : Option ℚ :=
  match markerLoop counts marker_idx 0 0 with
  | none => none
  | some (marker_zero, total) =>
    some (if 0 < total then (marker_zero : ℚ) / (total : ℚ) else 0)

/-- Whether the bits of a bitstring at positions i and j are both present and
equal (false also when either position is out of range; only used in that
fallthrough case under an indexability hypothesis). -/
def bitsEq (bs : Bitstring) (i j : ℕ) : Bool :=
  match bs[i]?, bs[j]? with
  | some alice_bit, some bob_bit => alice_bit == bob_bit
  | _, _ => false

/-- Total count of the outcomes classified as same (bits at the two
designated positions equal). -/
def sameCount : Counts → ℕ → ℕ → ℕ
  | [], _, _ => 0
  | (bs, c) :: rest, i, j => (if bitsEq bs i j then c else 0) + sameCount rest i j

/-- Total count of the outcomes classified as different. -/
def diffCount : Counts → ℕ → ℕ → ℕ
  | [], _, _ => 0
  | (bs, c) :: rest, i, j => (if bitsEq bs i j then 0 else c) + diffCount rest i j

/-- Every bitstring key of the counts mapping is long enough to index the two
designated positions. -/
abbrev BitsIndexable (counts : Counts) (i j : ℕ) : Prop :=
  ∀ p ∈ counts, i < p.1.length ∧ j < p.1.length

/-- Every bitstring key of the counts mapping is long enough to index the
marker position. -/
abbrev MarkerIndexable (counts : Counts) (m : ℕ) : Prop :=
  ∀ p ∈ counts, m < p.1.length

lemma classifyLoop_eq (counts : Counts) (i j : ℕ) (h : BitsIndexable counts i j) :
    ∀ same different, classifyLoop counts i j same different
      = some (same + sameCount counts i j, different + diffCount counts i j) := by
  induction counts with
  | nil => intro s d; simp [classifyLoop, sameCount, diffCount]
  | cons p rest ih =>
    intro s d
    obtain ⟨bs, c⟩ := p
    have hpi : i < bs.length := (h (bs, c) (List.mem_cons_self _ _)).1
    have hpj : j < bs.length := (h (bs, c) (List.mem_cons_self _ _)).2
    have hrest : BitsIndexable rest i j := fun q hq => h q (List.mem_cons_of_mem _ hq)
    have hi : bs[i]? = some bs[i] := List.getElem?_eq_getElem hpi
    have hj : bs[j]? = some bs[j] := List.getElem?_eq_getElem hpj
    by_cases hcase : bs[i] = bs[j]
    · have hbeq : bitsEq bs i j = true := by simp [bitsEq, hi, hj, hcase]
      have hstep : classifyLoop ((bs, c) :: rest) i j s d = classifyLoop rest i j (s + c) d := by
        simp [classifyLoop, hi, hj, hcase]
      rw [hstep, ih hrest]
      simp [sameCount, diffCount, hbeq, Option.some.injEq, Prod.mk.injEq]
      omega
    · have hbeq : bitsEq bs i j = false := by simp [bitsEq, hi, hj, hcase]
      have hstep : classifyLoop ((bs, c) :: rest) i j s d = classifyLoop rest i j s (d + c) := by
        simp [classifyLoop, hi, hj, hcase]
      rw [hstep, ih hrest]
      simp [sameCount, diffCount, hbeq, Option.some.injEq, Prod.mk.injEq]
      omega

lemma sameCount_add_diffCount (counts : Counts) (i j : ℕ) :
    sameCount counts i j + diffCount counts i j = totalCount counts := by
  induction counts with
  | nil => simp [sameCount, diffCount, totalCount]
  | cons p rest ih =>
    obtain ⟨bs, c⟩ := p
    simp only [sameCount, diffCount, totalCount, List.map_cons, List.sum_cons]
    simp only [totalCount] at ih
    by_cases hb : bitsEq bs i j <;> simp [hb] <;> omega

/-- Claim C1: for a counts mapping whose keys index both designated
positions and whose total equals the positive declared shot count,
compute_correlation returns C = (same - different) / total, where an outcome
is classified same exactly when its bits at the two designated positions are
equal, and this C lies in [-1, 1]. -/
theorem claim_C1 (counts : Counts) (i j n : ℕ)
    (hb : BitsIndexable counts i j) (ht : totalCount counts = n) (hn : 0 < n) :
    compute_correlation counts i j n
      = some (((sameCount counts i j : ℚ) - (diffCount counts i j : ℚ)) / (n : ℚ),
              1 / Real.sqrt (n : ℝ))
    ∧ -1 ≤ ((sameCount counts i j : ℚ) - (diffCount counts i j : ℚ)) / (n : ℚ)
    ∧ ((sameCount counts i j : ℚ) - (diffCount counts i j : ℚ)) / (n : ℚ) ≤ 1 := by
  have hsum : sameCount counts i j + diffCount counts i j = n := by
    rw [sameCount_add_diffCount, ht]
  have hnq : (0 : ℚ) < (n : ℚ) := by exact_mod_cast hn
  refine ⟨?_, ?_, ?_⟩
  · unfold compute_correlation
    rw [classifyLoop_eq counts i j hb 0 0]
    simp [hn.ne']
  · rw [le_div_iff₀ hnq]
    have h1 : ((sameCount counts i j : ℚ)) ≥ 0 := by positivity
    have h2 : ((sameCount counts i j : ℚ)) + (diffCount counts i j : ℚ) = (n : ℚ) := by
      exact_mod_cast hsum
    linarith
  · rw [div_le_one hnq]
    have h1 : ((diffCount counts i j : ℚ)) ≥ 0 := by positivity
    have h2 : ((sameCount counts i j : ℚ)) + (diffCount counts i j : ℚ) = (n : ℚ) := by
      exact_mod_cast hsum
    linarith

/-- Witness for C1 at a concrete mixed counts mapping with total 4. -/
theorem claim_C1_witness :
    BitsIndexable [([false, false], 3), ([false, true], 1)] 0 1
    ∧ totalCount [([false, false], 3), ([false, true], 1)] = 4
    ∧ 0 < 4
    ∧ (compute_correlation [([false, false], 3), ([false, true], 1)] 0 1 4
        = some (((sameCount [([false, false], 3), ([false, true], 1)] 0 1 : ℚ)
                  - (diffCount [([false, false], 3), ([false, true], 1)] 0 1 : ℚ)) / (4 : ℚ),
                1 / Real.sqrt ((4 : ℕ) : ℝ))
      ∧ -1 ≤ ((sameCount [([false, false], 3), ([false, true], 1)] 0 1 : ℚ)
                - (diffCount [([false, false], 3), ([false, true], 1)] 0 1 : ℚ)) / (4 : ℚ)
      ∧ ((sameCount [([false, false], 3), ([false, true], 1)] 0 1 : ℚ)
                - (diffCount [([false, false], 3), ([false, true], 1)] 0 1 : ℚ)) / (4 : ℚ) ≤ 1) :=
  ⟨by decide, by decide, by decide,
   claim_C1 [([false, false], 3), ([false, true], 1)] 0 1 4 (by decide) (by decide) (by decide)⟩

/-- Total count of the outcomes whose marker bit reads zero. -/
def markerZeros : Counts → ℕ → ℕ
  | [], _ => 0
  | (bs, c) :: rest, m => (if bs[m]? = some false then c else 0) + markerZeros rest m

lemma markerLoop_eq (counts : Counts) (m : ℕ) (h : MarkerIndexable counts m) :
    ∀ z t, markerLoop counts m z t = some (z + markerZeros counts m, t + totalCount counts) := by
  induction counts with
  | nil => intro z t; simp [markerLoop, markerZeros, totalCount]
  | cons p rest ih =>
    intro z t
    obtain ⟨bs, c⟩ := p
    have hpm : m < bs.length := h (bs, c) (List.mem_cons_self _ _)
    have hrest : MarkerIndexable rest m := fun q hq => h q (List.mem_cons_of_mem _ hq)
    have hm : bs[m]? = some bs[m] := List.getElem?_eq_getElem hpm
    by_cases hb : bs[m] = false
    · have hstep : markerLoop ((bs, c) :: rest) m z t = markerLoop rest m (z + c) (t + c) := by
        simp [markerLoop, hm, hb]
      rw [hstep, ih hrest]
      simp [markerZeros, totalCount, hm, hb, Option.some.injEq, Prod.mk.injEq]
      omega
    · have hstep : markerLoop ((bs, c) :: rest) m z t = markerLoop rest m z (t + c) := by
        simp [markerLoop, hm, hb]
      rw [hstep, ih hrest]
      simp [markerZeros, totalCount, hm, hb, Option.some.injEq, Prod.mk.injEq]
      omega

lemma markerZeros_le_totalCount (counts : Counts) (m : ℕ) :
    markerZeros counts m ≤ totalCount counts := by
  induction counts with
  | nil => simp [markerZeros, totalCount]
  | cons p rest ih =>
    obtain ⟨bs, c⟩ := p
    simp only [markerZeros, totalCount, List.map_cons, List.sum_cons]
    simp only [totalCount] at ih
    by_cases hb : bs[m]? = some false <;> simp [hb] <;> omega

/-- Claim C3: for a counts mapping whose keys index the marker position,
verify_marker_erasure returns (without raising) the fraction of the total
count whose marker bit is zero, a value in [0, 1], and returns exactly 0
whenever the total count is zero, including when counts is empty. -/
theorem claim_C3 (counts : Counts) (m : ℕ) (h : MarkerIndexable counts m) :
    ∃ v, verify_marker_erasure counts m = some v
      ∧ 0 ≤ v ∧ v ≤ 1 ∧ (totalCount counts = 0 → v = 0) := by
  unfold verify_marker_erasure
  rw [markerLoop_eq counts m h 0 0]
  simp only [Nat.zero_add, zero_add]
  by_cases ht : 0 < totalCount counts
  · refine ⟨(markerZeros counts m : ℚ) / (totalCount counts : ℚ), by simp [ht], ?_, ?_, ?_⟩
    · positivity
    · rw [div_le_one (by exact_mod_cast ht)]
      exact_mod_cast markerZeros_le_totalCount counts m
    · intro h0; omega
  · have h0 : totalCount counts = 0 := by omega
    exact ⟨0, by simp [ht], le_refl 0, zero_le_one, fun _ => rfl⟩

/-- Witness for C3 at a concrete four-outcome mapping: the returned value is
some rational in [0, 1]. -/
theorem claim_C3_witness :
    MarkerIndexable [([false, false], 2), ([true, false], 2)] 0
    ∧ ∃ v, verify_marker_erasure [([false, false], 2), ([true, false], 2)] 0 = some v
        ∧ 0 ≤ v ∧ v ≤ 1 ∧ (totalCount [([false, false], 2), ([true, false], 2)] = 0 → v = 0) :=
  ⟨by decide, claim_C3 [([false, false], 2), ([true, false], 2)] 0 (by decide)⟩

lemma bitsEq_true_bounds {bs : Bitstring} {i j : ℕ} (h : bitsEq bs i j = true) :
    i < bs.length ∧ j < bs.length := by
  unfold bitsEq at h
  cases hgi : bs[i]? with
  | none => rw [hgi] at h; simp at h
  | some bi =>
    cases hgj : bs[j]? with
    | none => rw [hgi, hgj] at h; simp at h
    | some bj =>
      constructor
      · by_contra hlt
        rw [List.getElem?_eq_none (by omega)] at hgi
        exact Option.noConfusion hgi
      · by_contra hlt
        rw [List.getElem?_eq_none (by omega)] at hgj
        exact Option.noConfusion hgj

lemma sameCount_of_allSame (counts : Counts) (i j : ℕ)
    (hall : ∀ p ∈ counts, bitsEq p.1 i j = true) :
    sameCount counts i j = totalCount counts := by
  induction counts with
  | nil => simp [sameCount, totalCount]
  | cons p rest ih =>
    obtain ⟨bs, c⟩ := p
    have hp := hall (bs, c) (List.mem_cons_self _ _)
    have hrest := fun q hq => hall q (List.mem_cons_of_mem _ hq)
    have hihr := ih hrest
    simp only [totalCount] at hihr
    simp only [sameCount, totalCount, List.map_cons, List.sum_cons, hp, ite_true]
    omega

lemma diffCount_of_allSame (counts : Counts) (i j : ℕ)
    (hall : ∀ p ∈ counts, bitsEq p.1 i j = true) :
    diffCount counts i j = 0 := by
  induction counts with
  | nil => simp [diffCount]
  | cons p rest ih =>
    obtain ⟨bs, c⟩ := p
    have hp := hall (bs, c) (List.mem_cons_self _ _)
    have hrest := fun q hq => hall q (List.mem_cons_of_mem _ hq)
    simp [diffCount, hp, ih hrest]

/-- Claim C5: whenever every outcome of the counts mapping has equal bits at
the two designated positions and the total equals the positive declared shot
count, compute_correlation returns exactly C = +1 with error 1 / sqrt(total);
in particular on counts 00 -> 1000, 11 -> 1000 with declared total 2000 and
positions (0, 1) it returns C = +1 and an error strictly between 0.0223 and
0.0224 (approximately 0.0224). -/
theorem claim_C5 :
    (∀ (counts : Counts) (i j n : ℕ),
       (∀ p ∈ counts, bitsEq p.1 i j = true) → totalCount counts = n → 0 < n →
       compute_correlation counts i j n = some (1, 1 / Real.sqrt ((n : ℕ) : ℝ)))
    ∧ compute_correlation [([false, false], 1000), ([true, true], 1000)] 0 1 2000
        = some (1, 1 / Real.sqrt ((2000 : ℕ) : ℝ))
    ∧ (0.0223 : ℝ) < 1 / Real.sqrt ((2000 : ℕ) : ℝ)
    ∧ 1 / Real.sqrt ((2000 : ℕ) : ℝ) < 0.0224 := by
  have hgen : ∀ (counts : Counts) (i j n : ℕ),
      (∀ p ∈ counts, bitsEq p.1 i j = true) → totalCount counts = n → 0 < n →
      compute_correlation counts i j n = some (1, 1 / Real.sqrt ((n : ℕ) : ℝ)) := by
    intro counts i j n hall ht hn
    have hb : BitsIndexable counts i j := fun p hp => bitsEq_true_bounds (hall p hp)
    unfold compute_correlation
    rw [classifyLoop_eq counts i j hb 0 0]
    have hs : sameCount counts i j = n := by rw [sameCount_of_allSame counts i j hall, ht]
    have hd : diffCount counts i j = 0 := diffCount_of_allSame counts i j hall
    have hnq : ((n : ℚ)) ≠ 0 := by exact_mod_cast hn.ne'
    simp [hn.ne', hs, hd, div_self hnq]
  have h2000 : ((2000 : ℕ) : ℝ) = (2000 : ℝ) := by norm_num
  have hsqrt_pos : (0 : ℝ) < Real.sqrt 2000 := Real.sqrt_pos.mpr (by norm_num)
  have hlow : (44.65 : ℝ) < Real.sqrt 2000 := by
    rw [show (44.65 : ℝ) = Real.sqrt (44.65 ^ 2) from (Real.sqrt_sq (by norm_num)).symm]
    exact Real.sqrt_lt_sqrt (by norm_num) (by norm_num)
  have hhigh : Real.sqrt 2000 < 44.8 := by
    rw [show (44.8 : ℝ) = Real.sqrt (44.8 ^ 2) from (Real.sqrt_sq (by norm_num)).symm]
    exact Real.sqrt_lt_sqrt (by norm_num) (by norm_num)
  refine ⟨hgen, hgen _ 0 1 2000 (by decide) (by decide) (by decide), ?_, ?_⟩
  · rw [h2000]
    have h1 : (1 : ℝ) / 44.8 < 1 / Real.sqrt 2000 := one_div_lt_one_div_of_lt hsqrt_pos hhigh
    have h2 : (0.0223 : ℝ) < 1 / 44.8 := by norm_num
    linarith
  · rw [h2000]
    have h1 : 1 / Real.sqrt 2000 < (1 : ℝ) / 44.65 :=
      one_div_lt_one_div_of_lt (by norm_num) hlow
    have h2 : (1 : ℝ) / 44.65 < 0.0224 := by norm_num
    linarith

/-- Witness for C5: a concrete all-same counts mapping with total 5. -/
theorem claim_C5_witness :
    compute_correlation [([true, true], 5)] 0 1 5 = some (1, 1 / Real.sqrt ((5 : ℕ) : ℝ)) :=
  claim_C5.1 [([true, true], 5)] 0 1 5 (by decide) (by decide) (by decide)

/-- Claim C9: compute_correlation never checks that the counts total equals
the declared shot count; for every indexable counts mapping and positive
n_shots it returns (same - different) / n_shots without raising, and on the
concrete mapping 00 -> 100 with declared n_shots = 10 it returns C = 10,
strictly outside [-1, 1], signalling no error. -/
theorem claim_C9 :
    (∀ (counts : Counts) (i j n : ℕ), BitsIndexable counts i j → 0 < n →
       compute_correlation counts i j n
         = some (((sameCount counts i j : ℚ) - (diffCount counts i j : ℚ)) / (n : ℚ),
                 1 / Real.sqrt ((n : ℕ) : ℝ)))
    ∧ (compute_correlation [([false, false], 100)] 0 1 10).map Prod.fst = some 10
    ∧ totalCount [([false, false], 100)] ≠ 10
    ∧ (1 : ℚ) < 10 := by
  have hgen : ∀ (counts : Counts) (i j n : ℕ), BitsIndexable counts i j → 0 < n →
      compute_correlation counts i j n
        = some (((sameCount counts i j : ℚ) - (diffCount counts i j : ℚ)) / (n : ℚ),
                1 / Real.sqrt ((n : ℕ) : ℝ)) := by
    intro counts i j n hb hn
    unfold compute_correlation
    rw [classifyLoop_eq counts i j hb 0 0]
    simp [hn.ne']
  refine ⟨hgen, ?_, by decide, by norm_num⟩
  rw [hgen [([false, false], 100)] 0 1 10 (by decide) (by decide)]
  have hs : sameCount [([false, false], 100)] 0 1 = 100 := by decide
  have hd : diffCount [([false, false], 100)] 0 1 = 0 := by decide
  rw [hs, hd]
  norm_num

/-- Witness for C9 at a counts mapping whose total 2 differs from the
declared shot count 5: the estimator still returns a value. -/
theorem claim_C9_witness :
    compute_correlation [([true, false], 2)] 0 1 5
      = some (((sameCount [([true, false], 2)] 0 1 : ℚ)
                - (diffCount [([true, false], 2)] 0 1 : ℚ)) / (5 : ℚ),
              1 / Real.sqrt ((5 : ℕ) : ℝ)) :=
  claim_C9.1 [([true, false], 2)] 0 1 5 (by decide) (by decide)

/-- Gates appearing in the experiment circuits. -/
inductive Gate where
  | h : ℕ → Gate
  | cnot : ℕ → ℕ → Gate
  | ry : ℕ → ℝ → Gate
  | measure : ℕ → Gate

/-- A circuit is its gate sequence, in application order. -/
abbrev Circuit := List Gate

/-- create_bell_state: appends H(alice) and CNOT(alice, bob). -/
def create_bell_state (circuit : Circuit) (alice bob : ℕ) : Circuit :=
  circuit ++ [Gate.h alice, Gate.cnot alice bob]

/-- controlled_rotation_cnot: appends the five-gate CRY decomposition
RY(theta/2), CNOT, RY(-theta/2), CNOT, RY(theta/2) on (control, target). -/
noncomputable def controlled_rotation_cnot (circuit : Circuit) (control target : ℕ) (theta : ℝ) : Circuit :=
  circuit ++ [Gate.ry target (theta / 2), Gate.cnot control target,
              Gate.ry target (-(theta / 2)), Gate.cnot control target,
              Gate.ry target (theta / 2)]

/-- circuit_standard_bell: condition 1, the reference Bell circuit. -/
def circuit_standard_bell (alice bob : ℕ) : Circuit :=
  create_bell_state [] alice bob

/-- circuit_no_reversal: condition 2, Bell state then the forward controlled
rotation coupling alice to the marker with strength theta. -/
noncomputable def circuit_no_reversal (alice bob marker : ℕ) (theta : ℝ) : Circuit :=
  controlled_rotation_cnot (create_bell_state [] alice bob) alice marker theta

/-- circuit_with_reversal: condition 3, the forward circuit followed by the
same decomposition applied with strength -theta. -/
noncomputable def circuit_with_reversal (alice bob marker : ℕ) (theta : ℝ) : Circuit :=
  controlled_rotation_cnot
    (controlled_rotation_cnot (create_bell_state [] alice bob) alice marker theta)
    alice marker (-theta)

/-- add_measurements: appends a computational-basis measurement per qubit. -/
def add_measurements (circuit : Circuit) (qubits : List ℕ) : Circuit :=
  circuit ++ qubits.map Gate.measure

/-- Claim C8: circuit construction is a pure function of the angle and role
assignment (hence deterministic), and for every theta the gate sequence of
the forward+reverse circuit is exactly the gate sequence of the forward-only
circuit followed by the five-gate controlled-rotation decomposition applied
with strength -theta. -/
theorem claim_C8 (theta : ℝ) (alice bob marker : ℕ) :
    circuit_with_reversal alice bob marker theta
      = circuit_no_reversal alice bob marker theta
        ++ controlled_rotation_cnot [] alice marker (-theta) := by
  simp [circuit_with_reversal, circuit_no_reversal, controlled_rotation_cnot,
        create_bell_state, List.append_assoc]

/-- Result of a numpy floating-point division of nonnegative operands: a
finite value, positive infinity (x / 0 with x > 0), or nan (0 / 0). -/
inductive NpF where
  | val : ℝ → NpF
  | posInf : NpF
  | nan : NpF
deriving Inhabited

/-- Numpy division a / b for nonnegative a and b: exact quotient when b is
nonzero, positive infinity or nan when b is zero (the division is performed,
no exception is raised). -/
noncomputable def npDivNN (a b : ℝ) : NpF :=
  if b = 0 then (if a = 0 then NpF.nan else NpF.posInf) else NpF.val (a / b)

/-- The numpy comparison significance < 2 (inf < 2 and nan < 2 are false). -/
noncomputable def npLtTwo : NpF → Bool
  | NpF.val s => decide (s < 2)
  | NpF.posInf => false
  | NpF.nan => false

/-- The two-sided p-value 2 * (1 - normCdf(abs t)) applied to a numpy float:
the cdf of infinity is 1 (p-value 0), and nan propagates. -/
noncomputable def npPvalueOf (normCdf : ℝ → ℝ) : NpF → NpF
  | NpF.val t => NpF.val (2 * (1 - normCdf |t|))
  | NpF.posInf => NpF.val 0
  | NpF.nan => NpF.nan

/-- The parallel per-condition sequences of a results record (the arrays
built by extract_arrays in the analysis module, and the data sub-record
filled in by run_experiment). -/
structure ExpData where
  theta : List ℚ
  C_standard : List ℝ
  C_standard_err : List ℝ
  C_no_reversal : List ℝ
  C_no_reversal_err : List ℝ
  C_with_reversal : List ℝ
  C_with_reversal_err : List ℝ

/-- The consumers' lookup of the 90-degree angle: the first index whose
stored angle is exactly equal to 90 (numpy.where(theta == 90)[0][0]); none
models the IndexError raised when no angle matches. -/
def locate90 (thetas : List ℚ) : Option ℕ :=
  List.findIdx? (fun t => decide (t = (90 : ℚ))) thetas

/-- Return record of analyze_restoration_failure. -/
structure RestorationResult where
  theta : ℚ
  C_standard : ℝ
  C_with_reversal : ℝ
  gap : ℝ
  significance_sigma : NpF
  t_statistic : NpF
  p_value : NpF

/-- analyze_restoration_failure from the analysis module: locate the
90-degree measurement by exact equality, read the standard and with-reversal
values and errors there, and form gap, combined error, significance
gap / combined_error and the two-sided p-value (normCdf stands for the
external standard normal cdf).  none models an uncaught index/lookup
failure. -/
noncomputable def analyze_restoration_failure (normCdf : ℝ → ℝ) (d : ExpData) :
    Option RestorationResult :=
  match locate90 d.theta with
  | none => none
  | some idx_90 =>
    match d.C_standard[idx_90]?, d.C_with_reversal[idx_90]?,
          d.C_standard_err[idx_90]?, d.C_with_reversal_err[idx_90]? with
    | some C_std, some C_rev, some err_std, some err_rev =>
      let gap := |C_std - C_rev|
      let combined_err := Real.sqrt (err_std ^ 2 + err_rev ^ 2)
      let significance := npDivNN gap combined_err
      some { theta := 90, C_standard := C_std, C_with_reversal := C_rev, gap := gap,
             significance_sigma := significance, t_statistic := significance,
             p_value := npPvalueOf normCdf significance }
    | _, _, _, _ => none

/-- Return record of test_erasure_vs_no_erasure. -/
structure ErasureTestResult where
  C_no_reversal : ℝ
  C_with_reversal : ℝ
  difference : ℝ
  significance_sigma : NpF
  statistically_same : Bool

/-- test_erasure_vs_no_erasure from the analysis module: locate the
90-degree measurement by exact equality, read the no-reversal and
with-reversal values and errors there, form the difference, combined error
and significance, and classify with the fixed threshold significance < 2.
none models an uncaught index/lookup failure. -/
noncomputable def test_erasure_vs_no_erasure (d : ExpData) : Option ErasureTestResult :=
  match locate90 d.theta with
  | none => none
  | some idx_90 =>
    match d.C_no_reversal[idx_90]?, d.C_with_reversal[idx_90]?,
          d.C_no_reversal_err[idx_90]?, d.C_with_reversal_err[idx_90]? with
    | some C_no_rev, some C_with_rev, some err_no, some err_with =>
      let diff := |C_with_rev - C_no_rev|
      let combined_err := Real.sqrt (err_no ^ 2 + err_with ^ 2)
      let significance := npDivNN diff combined_err
      some { C_no_reversal := C_no_rev, C_with_reversal := C_with_rev, difference := diff,
             significance_sigma := significance,
             statistically_same := npLtTwo significance }
    | _, _, _, _ => none

/-- A single-angle results record at angle 90 with the given standard,
no-reversal, with-reversal values and errors (test-input builder). -/
def mkD90 (cs es cn en cw ew : ℝ) : ExpData :=
  { theta := [90], C_standard := [cs], C_standard_err := [es],
    C_no_reversal := [cn], C_no_reversal_err := [en],
    C_with_reversal := [cw], C_with_reversal_err := [ew] }

lemma locate90_mkD90 (cs es cn en cw ew : ℝ) : locate90 (mkD90 cs es cn en cw ew).theta = some 0 := by
  simp [locate90, mkD90, List.findIdx?]

lemma test_erasure_mkD90 (cs es cn en cw ew : ℝ) :
    test_erasure_vs_no_erasure (mkD90 cs es cn en cw ew)
      = some { C_no_reversal := cn, C_with_reversal := cw, difference := |cw - cn|,
               significance_sigma := npDivNN |cw - cn| (Real.sqrt (en ^ 2 + ew ^ 2)),
               statistically_same := npLtTwo (npDivNN |cw - cn| (Real.sqrt (en ^ 2 + ew ^ 2))) } := by
  unfold test_erasure_vs_no_erasure
  rw [locate90_mkD90]
  simp [mkD90]

lemma analyze_restoration_mkD90 (normCdf : ℝ → ℝ) (cs es cn en cw ew : ℝ) :
    analyze_restoration_failure normCdf (mkD90 cs es cn en cw ew)
      = some { theta := 90, C_standard := cs, C_with_reversal := cw, gap := |cs - cw|,
               significance_sigma := npDivNN |cs - cw| (Real.sqrt (es ^ 2 + ew ^ 2)),
               t_statistic := npDivNN |cs - cw| (Real.sqrt (es ^ 2 + ew ^ 2)),
               p_value := npPvalueOf normCdf (npDivNN |cs - cw| (Real.sqrt (es ^ 2 + ew ^ 2))) } := by
  unfold analyze_restoration_failure
  rw [locate90_mkD90]
  simp [mkD90]

/-- Claim C2 counterexample: on a record whose two errors at the located
angle are both zero (and whose gap is 1), the significance gap test does not
signal an undefined result: it returns a record whose significance field is
exactly the performed division npDivNN 1 0, that is, positive infinity. -/
theorem claim_C2_counterexample :
    (test_erasure_vs_no_erasure (mkD90 0 0 0 0 1 0)).map (fun r => r.significance_sigma)
      = some (npDivNN 1 0)
    ∧ npDivNN 1 0 = NpF.posInf := by
  constructor
  · rw [test_erasure_mkD90]
    simp only [Option.map_some']
    congr 1
    have h1 : |(1 : ℝ) - 0| = 1 := by norm_num
    have h2 : Real.sqrt ((0 : ℝ) ^ 2 + 0 ^ 2) = 0 := by
      rw [show ((0 : ℝ) ^ 2 + 0 ^ 2) = 0 by norm_num, Real.sqrt_zero]
    rw [h1, h2]
  · simp [npDivNN]

/-- Claim C2 (amended): when the combined error is zero, the significance
code performs the division gap / combined_error anyway; for a nonzero gap
both analysis operations return a record whose significance is positive
infinity, and no undefined result is signalled. -/
theorem claim_C2_amended (normCdf : ℝ → ℝ) (cs cn cw : ℝ)
    (h1 : cs ≠ cw) (h2 : cn ≠ cw) :
    (analyze_restoration_failure normCdf (mkD90 cs 0 cn 0 cw 0)).map
        (fun r => r.significance_sigma) = some NpF.posInf
    ∧ (test_erasure_vs_no_erasure (mkD90 cs 0 cn 0 cw 0)).map
        (fun r => r.significance_sigma) = some NpF.posInf := by
  have hz : Real.sqrt ((0 : ℝ) ^ 2 + 0 ^ 2) = 0 := by
    rw [show ((0 : ℝ) ^ 2 + 0 ^ 2) = 0 by norm_num, Real.sqrt_zero]
  constructor
  · rw [analyze_restoration_mkD90]
    simp only [Option.map_some', Option.some.injEq]
    rw [hz]
    have hd : |cs - cw| ≠ 0 := by
      simp only [ne_eq, abs_eq_zero, sub_eq_zero]
      exact h1
    simp [npDivNN, hd]
  · rw [test_erasure_mkD90]
    simp only [Option.map_some', Option.some.injEq]
    rw [hz]
    have hd : |cw - cn| ≠ 0 := by
      simp only [ne_eq, abs_eq_zero, sub_eq_zero]
      exact fun hcc => h2 hcc.symm
    simp [npDivNN, hd]

/-- Witness for the amended C2 at the concrete zero-error record with
standard value 0, no-reversal value 0 and with-reversal value 1. -/
theorem claim_C2_amended_witness :
    (analyze_restoration_failure (fun x => x) (mkD90 0 0 0 0 1 0)).map
        (fun r => r.significance_sigma) = some NpF.posInf
    ∧ (test_erasure_vs_no_erasure (mkD90 0 0 0 0 1 0)).map
        (fun r => r.significance_sigma) = some NpF.posInf :=
  claim_C2_amended (fun x => x) 0 0 1 (by norm_num) (by norm_num)

/-- Claim C4: the equivalence classification is statistically_same = true
(statistically indistinguishable) exactly when the significance sigma is
strictly below the fixed threshold 2; in particular sigma exactly 2 is
classified distinguishable (see the witness). -/
theorem claim_C4 (cn en cw ew : ℝ) (hc : Real.sqrt (en ^ 2 + ew ^ 2) ≠ 0) :
    (test_erasure_vs_no_erasure (mkD90 0 0 cn en cw ew)).map (fun r => r.statistically_same)
      = some (decide (|cw - cn| / Real.sqrt (en ^ 2 + ew ^ 2) < 2)) := by
  rw [test_erasure_mkD90]
  simp only [Option.map_some', Option.some.injEq]
  simp [npLtTwo, npDivNN, hc]

/-- Witness for C4 at the threshold boundary: values 0 and 2 with errors 1
and 0 give sigma exactly 2, classified distinguishable (false). -/
theorem claim_C4_witness :
    Real.sqrt ((1 : ℝ) ^ 2 + 0 ^ 2) ≠ 0
    ∧ (test_erasure_vs_no_erasure (mkD90 0 0 0 1 2 0)).map (fun r => r.statistically_same)
        = some false := by
  have hs : Real.sqrt ((1 : ℝ) ^ 2 + 0 ^ 2) = 1 := by
    rw [show ((1 : ℝ) ^ 2 + 0 ^ 2) = 1 by norm_num, Real.sqrt_one]
  have hne : Real.sqrt ((1 : ℝ) ^ 2 + 0 ^ 2) ≠ 0 := by rw [hs]; norm_num
  refine ⟨hne, ?_⟩
  rw [claim_C4 0 1 2 0 hne, hs]
  have : |(2 : ℝ) - 0| / 1 = 2 := by norm_num
  rw [this]
  simp

/-- Claim C6: both analysis operations locate the 90-degree measurement by
exact equality against the stored angle sequence; on every record whose
angle sequence contains no value exactly equal to 90, the lookup fails and
they raise an uncaught index/lookup failure (modelled as none) instead of
returning a result. -/
theorem claim_C6 (normCdf : ℝ → ℝ) (d : ExpData) (h : (90 : ℚ) ∉ d.theta) :
    locate90 d.theta = none
    ∧ analyze_restoration_failure normCdf d = none
    ∧ test_erasure_vs_no_erasure d = none := by
  have hfind : locate90 d.theta = none := by
    rw [locate90, List.findIdx?_eq_none_iff]
    intro t ht
    simp only [decide_eq_false_iff_not]
    exact fun heq => h (heq ▸ ht)
  refine ⟨hfind, ?_, ?_⟩
  · unfold analyze_restoration_failure
    rw [hfind]
  · unfold test_erasure_vs_no_erasure
    rw [hfind]

/-- Witness for C6: a record whose stored angles skip 90 makes both analysis
operations fail. -/
theorem claim_C6_witness :
    locate90 ([0, 30, 60, 120, 150, 180] : List ℚ) = none
    ∧ analyze_restoration_failure (fun x => x)
        { theta := [0, 30, 60, 120, 150, 180], C_standard := [], C_standard_err := [],
          C_no_reversal := [], C_no_reversal_err := [],
          C_with_reversal := [], C_with_reversal_err := [] } = none
    ∧ test_erasure_vs_no_erasure
        { theta := [0, 30, 60, 120, 150, 180], C_standard := [], C_standard_err := [],
          C_no_reversal := [], C_no_reversal_err := [],
          C_with_reversal := [], C_with_reversal_err := [] } = none :=
  claim_C6 (fun x => x)
    { theta := [0, 30, 60, 120, 150, 180], C_standard := [], C_standard_err := [],
      C_no_reversal := [], C_no_reversal_err := [],
      C_with_reversal := [], C_with_reversal_err := [] } (by decide)

/-- A run metadata record (device id, fixed angle list, shot count; the
wall-clock timestamp is not modelled). -/
structure Metadata where
  device : String
  theta_values : List ℚ
  n_shots : ℕ

/-- One per-angle raw-counts entry of the results record: the angle together
with the per-condition raw counts and derived values (the nested circuits
dict of run_experiment, flattened). -/
structure RawAngleEntry where
  theta : ℚ
  standard_counts : Counts
  standard_C : ℚ
  standard_C_err : ℝ
  no_reversal_counts : Counts
  no_reversal_C : ℚ
  no_reversal_C_err : ℝ
  with_reversal_counts : Counts
  with_reversal_C : ℚ
  with_reversal_C_err : ℝ
  marker_P0 : ℚ

/-- The full results record built by run_experiment. -/
structure Results where
  metadata : Metadata
  data : ExpData
  raw_counts : List RawAngleEntry

/-- The external device abstraction: maps a circuit and a shot count to a
measurement-counts mapping.  run_experiment is verified for an arbitrary
such function. -/
def Device := Circuit → ℕ → Counts

/-- numpy.deg2rad: degrees to radians. -/
noncomputable def deg2rad (theta_deg : ℚ) : ℝ := (theta_deg : ℝ) * (Real.pi / 180)

/-- The empty results record run_experiment starts from. -/
def initResults : Results :=
  { metadata := { device := DEVICE_ARN, theta_values := THETA_VALUES, n_shots := N_SHOTS },
    data := { theta := [], C_standard := [], C_standard_err := [], C_no_reversal := [],
              C_no_reversal_err := [], C_with_reversal := [], C_with_reversal_err := [] },
    raw_counts := [] }

/-- One iteration of the run_experiment loop: build and submit the three
condition circuits for one angle, compute the correlations (and, for the
reversal condition, the marker-erasure check), and append everything to the
growing results record.  none models an uncaught exception aborting the
run. -/
noncomputable def runStep (device : Device) (results : Results) (theta_deg : ℚ) :
    Option Results :=
  let theta_rad := deg2rad theta_deg
  let circuit1 := add_measurements (circuit_standard_bell ALICE_QUBIT BOB_QUBIT)
    [ALICE_QUBIT, BOB_QUBIT]
  let counts1 := device circuit1 N_SHOTS
  match compute_correlation counts1 ALICE_QUBIT BOB_QUBIT N_SHOTS with
  | none => none
  | some (C_std, C_std_err) =>
    let circuit2 := add_measurements
      (circuit_no_reversal ALICE_QUBIT BOB_QUBIT MARKER_QUBIT theta_rad)
      [ALICE_QUBIT, BOB_QUBIT, MARKER_QUBIT]
    let counts2 := device circuit2 N_SHOTS
    match compute_correlation counts2 ALICE_QUBIT BOB_QUBIT N_SHOTS with
    | none => none
    | some (C_no_rev, C_no_rev_err) =>
      let circuit3 := add_measurements
        (circuit_with_reversal ALICE_QUBIT BOB_QUBIT MARKER_QUBIT theta_rad)
        [ALICE_QUBIT, BOB_QUBIT, MARKER_QUBIT]
      let counts3 := device circuit3 N_SHOTS
      match compute_correlation counts3 ALICE_QUBIT BOB_QUBIT N_SHOTS with
      | none => none
      | some (C_rev, C_rev_err) =>
        match verify_marker_erasure counts3 MARKER_QUBIT with
        | none => none
        | some marker_erased =>
          some { results with
                 data := { theta := results.data.theta ++ [theta_deg],
                           C_standard := results.data.C_standard ++ [(C_std : ℝ)],
                           C_standard_err := results.data.C_standard_err ++ [C_std_err],
                           C_no_reversal := results.data.C_no_reversal ++ [(C_no_rev : ℝ)],
                           C_no_reversal_err := results.data.C_no_reversal_err ++ [C_no_rev_err],
                           C_with_reversal := results.data.C_with_reversal ++ [(C_rev : ℝ)],
                           C_with_reversal_err :=
                             results.data.C_with_reversal_err ++ [C_rev_err] },
                 raw_counts := results.raw_counts ++
                   [{ theta := theta_deg, standard_counts := counts1, standard_C := C_std,
                      standard_C_err := C_std_err, no_reversal_counts := counts2,
                      no_reversal_C := C_no_rev, no_reversal_C_err := C_no_rev_err,
                      with_reversal_counts := counts3, with_reversal_C := C_rev,
                      with_reversal_C_err := C_rev_err, marker_P0 := marker_erased }] }

/-- The run_experiment loop over an arbitrary angle list (the state after
the first k angles of a run is the value of this fold over the length-k
prefix of the angle list). -/
noncomputable def runOverAngles (device : Device) (angles : List ℚ) : Option Results :=
  List.foldlM (fun acc theta_deg => runStep device acc theta_deg) initResults angles

/-- run_experiment: the per-angle loop over the fixed angle list. -/
noncomputable def run_experiment (device : Device) : Option Results :=
  runOverAngles device THETA_VALUES

/-- All seven per-condition data sequences and the raw_counts sequence of a
results record have length k. -/
def allLensEq (r : Results) (k : ℕ) : Prop :=
  r.data.theta.length = k ∧ r.data.C_standard.length = k ∧ r.data.C_standard_err.length = k
  ∧ r.data.C_no_reversal.length = k ∧ r.data.C_no_reversal_err.length = k
  ∧ r.data.C_with_reversal.length = k ∧ r.data.C_with_reversal_err.length = k
  ∧ r.raw_counts.length = k

lemma runStep_spec (device : Device) (acc : Results) (theta_deg : ℚ) (res : Results)
    (h : runStep device acc theta_deg = some res) :
    res.data.theta = acc.data.theta ++ [theta_deg]
    ∧ res.data.C_standard.length = acc.data.C_standard.length + 1
    ∧ res.data.C_standard_err.length = acc.data.C_standard_err.length + 1
    ∧ res.data.C_no_reversal.length = acc.data.C_no_reversal.length + 1
    ∧ res.data.C_no_reversal_err.length = acc.data.C_no_reversal_err.length + 1
    ∧ res.data.C_with_reversal.length = acc.data.C_with_reversal.length + 1
    ∧ res.data.C_with_reversal_err.length = acc.data.C_with_reversal_err.length + 1
    ∧ res.raw_counts.length = acc.raw_counts.length + 1 := by
  unfold runStep at h
  dsimp only at h
  split at h
  · exact Option.noConfusion h
  · split at h
    · exact Option.noConfusion h
    · split at h
      · exact Option.noConfusion h
      · split at h
        · exact Option.noConfusion h
        · rw [Option.some.injEq] at h
          subst h
          simp [List.length_append]

lemma runFold_spec (device : Device) :
    ∀ (angles : List ℚ) (acc res : Results),
      List.foldlM (fun a t => runStep device a t) acc angles = some res →
      res.data.theta = acc.data.theta ++ angles
      ∧ res.data.C_standard.length = acc.data.C_standard.length + angles.length
      ∧ res.data.C_standard_err.length = acc.data.C_standard_err.length + angles.length
      ∧ res.data.C_no_reversal.length = acc.data.C_no_reversal.length + angles.length
      ∧ res.data.C_no_reversal_err.length = acc.data.C_no_reversal_err.length + angles.length
      ∧ res.data.C_with_reversal.length = acc.data.C_with_reversal.length + angles.length
      ∧ res.data.C_with_reversal_err.length
          = acc.data.C_with_reversal_err.length + angles.length
      ∧ res.raw_counts.length = acc.raw_counts.length + angles.length := by
  intro angles
  induction angles with
  | nil =>
    intro acc res h
    simp only [List.foldlM, pure, Option.some.injEq] at h
    subst h
    simp
  | cons a rest ih =>
    intro acc res h
    simp only [List.foldlM] at h
    cases hstep : runStep device acc a with
    | none => rw [hstep] at h; simp at h
    | some acc2 =>
      rw [hstep] at h
      simp only [Option.bind_eq_bind, Option.some_bind] at h
      obtain ⟨s1, s2, s3, s4, s5, s6, s7, s8⟩ := runStep_spec device acc a acc2 hstep
      obtain ⟨r1, r2, r3, r4, r5, r6, r7, r8⟩ := ih acc2 res h
      refine ⟨?_, ?_, ?_, ?_, ?_, ?_, ?_, ?_⟩
      · rw [r1, s1, List.append_assoc, List.singleton_append]
      all_goals simp only [List.length_cons]
      · omega
      · omega
      · omega
      · omega
      · omega
      · omega
      · omega

/-- Claim C7: for every device behaviour, after processing any prefix of the
angle list all seven per-condition data sequences and the raw_counts
sequence of the results record have equal length, equal to the number of
angles processed (the state after the first k angles of a run is the fold
over the length-k prefix); on a completed run over the full list every
length equals the length of the angle list. -/
theorem claim_C7 (device : Device) (angles : List ℚ) (res : Results)
    (h : runOverAngles device angles = some res) :
    allLensEq res angles.length := by
  unfold runOverAngles at h
  obtain ⟨r1, r2, r3, r4, r5, r6, r7, r8⟩ := runFold_spec device angles initResults res h
  simp only [initResults] at r1 r2 r3 r4 r5 r6 r7 r8
  refine ⟨?_, ?_, ?_, ?_, ?_, ?_, ?_, ?_⟩
  · rw [r1]; simp
  · simpa using r2
  · simpa using r3
  · simpa using r4
  · simpa using r5
  · simpa using r6
  · simpa using r7
  · simpa using r8

/-- A constant test device returning all shots on outcome 000. -/
def devW : Device := fun _ _ => [([false, false, false], 2000)]

/-- Witness for C7: a complete run over the fixed seven-angle list with the
constant test device succeeds, and every sequence has length 7. -/
theorem claim_C7_witness :
    ∃ res, runOverAngles devW THETA_VALUES = some res ∧ allLensEq res 7 := by
  have hs : (runOverAngles devW THETA_VALUES).isSome = true := by decide
  obtain ⟨res, hres⟩ := Option.isSome_iff_exists.mp hs
  refine ⟨res, hres, ?_⟩
  have h7 : THETA_VALUES.length = 7 := rfl
  exact h7 ▸ claim_C7 devW THETA_VALUES res hres

/-- Claim C10: every results record produced by run_experiment has its data
theta sequence exactly equal to [0, 30, 60, 90, 120, 150, 180] regardless of
the device behaviour, so the consumers' exact-equality lookup of 90 finds
index 3. -/
theorem claim_C10 (device : Device) (res : Results)
    (h : run_experiment device = some res) :
    res.data.theta = ([0, 30, 60, 90, 120, 150, 180] : List ℚ)
    ∧ locate90 res.data.theta = some 3 := by
  unfold run_experiment runOverAngles at h
  have hspec := (runFold_spec device THETA_VALUES initResults res h).1
  have htheta : res.data.theta = ([0, 30, 60, 90, 120, 150, 180] : List ℚ) := by
    rw [hspec]
    simp [initResults, THETA_VALUES]
  refine ⟨htheta, ?_⟩
  rw [htheta]
  decide

/-- Witness for C10: the complete run with the constant test device yields a
record whose theta sequence is the literal angle list and whose 90-degree
lookup succeeds at index 3. -/
theorem claim_C10_witness :
    ∃ res, run_experiment devW = some res
      ∧ res.data.theta = ([0, 30, 60, 90, 120, 150, 180] : List ℚ)
      ∧ locate90 res.data.theta = some 3 := by
  have hs : (run_experiment devW).isSome = true := by decide
  obtain ⟨res, hres⟩ := Option.isSome_iff_exists.mp hs
  exact ⟨res, hres, claim_C10 devW res hres⟩

end LoccExp
